import Mathlib

/-!
Shallow embedding of the evmone execution core (lib/evmone/instructions.cpp and
lib/evmone/execution.cpp) together with spec-modelled definitions for the parts of the
repository that are only declared here (check_memory, find_jumpdest, the host capability
interface, and the 384-bit bigint kernel of bigint.h / mulx_mont_384.h).

Conventions of the embedding:
- 256-bit stack words and memory bytes are `Nat` values; wrap-around is written as an
  explicit `% 2 ^ w` where the source performs a machine-width cast.
- `gas_left` and the other signed quantities are `Int`.
- A handler takes the current instruction index (the cursor into the instruction stream)
  and the execution state, and returns the next cursor (`none` is the halt sentinel, the
  translation of returning `nullptr`) together with the updated state.
-/

namespace Evmone

/-- Halting status codes surfaced by the core (the evmc status values used by the three
source files, plus `running` for a frame that has not halted yet and `other` for a status
propagated unchanged from a nested host call). -/
inductive StatusCode where
  | running
  | success
  | revert
  | outOfGas
  | invalidInstruction
  | undefinedInstruction
  | stackOverflow
  | stackUnderflow
  | badJumpDestination
  | other (code : Nat)
  deriving DecidableEq, Repr

/-- The mutable per-frame execution state (`execution_state` in the source): remaining gas,
value stack (top at the head), linear memory (a byte list), halting status, the gas already
pre-debited for the block in progress, and the output range. -/
structure ExecutionState where
  gasLeft : Int
  stack : List Nat
  memory : List Nat
  status : StatusCode
  currentBlockCost : Int
  output_offset : Nat
  output_size : Nat
  deriving DecidableEq, Repr

/-- Translation of `state.exit(status_code)`: set the halting status and return the null
continuation. -/
def ExecutionState.exit (s : ExecutionState) (code : StatusCode) :
    Option Nat × ExecutionState :=
  (none, { s with status := code })

/-- Pop the top stack word (`state.stack.pop()`); the value defaults to 0 on an empty
stack, a situation the block-level stack check prevents in the source. -/
def popStack (s : ExecutionState) : Nat × ExecutionState :=
  (s.stack.headD 0, { s with stack := s.stack.tail })

/-- Push a word on the value stack (`state.stack.push(v)`). -/
def pushStack (s : ExecutionState) (v : Nat) : ExecutionState :=
  { s with stack := v :: s.stack }

/-- The stack limit `evm_stack::limit` (1024). -/
def evm_stack_limit : Int := 1024

/-- `std::numeric_limits<int>::max()`, the largest value of the program-counter type. -/
def int_max : Nat := 2147483647

/-- Reduction of an `int64_t` value to the `uint256` pushed on the stack. -/
def wordOfInt (i : Int) : Nat := (i % (2 ^ 256 : Int)).toNat

/-- `static_cast<uint64_t>` of a signed 64-bit quantity, then widened to a stack word. -/
def wordOfUInt64 (i : Int) : Nat := (i % (2 ^ 64 : Int)).toNat

/-- Per-block metadata computed by the analysis pass (`block_info`). -/
structure BlockInfo where
  gas_cost : Int
  stack_req : Int
  stack_max_growth : Int
  deriving DecidableEq, Repr

/-- The call kinds of the four call-family opcodes (`evmc_call_kind`). -/
inductive CallKind where
  | call
  | delegatecall
  | callcode
  deriving DecidableEq, Repr

/-- The creation kinds (`EVMC_CREATE` / `EVMC_CREATE2`). -/
inductive CreateKind where
  | create
  | create2
  deriving DecidableEq, Repr

/-- Decoded instructions of the instruction stream, restricted to the handlers defined in
instructions.cpp; the `number` fields are the `instr->arg.number` values baked in by the
analysis pass. -/
inductive Instr where
  | beginblock (block : BlockInfo)
  | stop
  | sstore (number : Int)
  | jump
  | jumpi
  | pc (number : Int)
  | gas (number : Int)
  | push (value : Nat)
  | invalid
  | undefined
  | ret
  | revert
  | call (kind : CallKind) (static : Bool) (number : Int)
  | create (kind : CreateKind) (number : Int)
  | selfdestruct
  | addmod384
  | submod384
  | mulmodmont384
  deriving DecidableEq, Repr

/-- Modelled from the spec: the analysis output consumed read-only by the loop — the
instruction stream and the jump-destination lookup `find_jumpdest` (a nonnegative result
is the instruction index of the destination, a negative result means "not a valid
destination"); the analysis pass itself is outside the provided sources. -/
structure Analysis where
  instrs : List Instr
  find_jumpdest : Nat → Int

/-- Modelled from the spec: the host capability interface reached by the state-touching
opcodes (`sstore`, `call`, `create`, `selfdestruct` in the source are declared elsewhere);
each capability transforms the execution state and reports a status code. -/
structure Host where
  sstore : ExecutionState → StatusCode × ExecutionState
  call : CallKind → Bool → ExecutionState → StatusCode × ExecutionState
  create : CreateKind → ExecutionState → StatusCode × ExecutionState
  selfdestruct : ExecutionState → StatusCode × ExecutionState

/-- Modelled from the spec: the implementation limit up to which Memory may grow. -/
def memoryLimit : Nat := 2 ^ 32

/-- Memory grows in 32-byte-aligned increments. -/
def wordAlign (n : Nat) : Nat := (n + 31) / 32 * 32

/-- Grow the memory byte list with zero bytes to the aligned size covering `need`. -/
def growMemory (mem : List Nat) (need : Nat) : List Nat :=
  mem ++ List.replicate (wordAlign need - mem.length) 0

/-- Modelled from the spec: the memory bounds-check primitive `check_memory` (declared
outside the provided sources): verify the byte range `[offset, offset + size)`, extending
Memory in 32-byte-aligned increments if needed, and report failure when growth beyond the
implementation limit would be required. -/
def check_memory (s : ExecutionState) (offset size : Nat) : Bool × ExecutionState :=
  if size = 0 then (true, s)
  else if offset + size ≤ memoryLimit then
    (true, { s with memory := growMemory s.memory (offset + size) })
  else (false, s)

/-- Read one byte of memory, zero beyond the current size. -/
def getByte : List Nat → Nat → Nat
  | [], _ => 0
  | b :: _, 0 => b
  | _ :: bs, i + 1 => getByte bs i

/-- Write one byte of memory (no effect beyond the current size). -/
def setByte : List Nat → Nat → Nat → List Nat
  | [], _, _ => []
  | _ :: bs, 0, v => v :: bs
  | b :: bs, i + 1, v => b :: setByte bs i v

/-- Read `count` bytes starting at `off` as a little-endian number. -/
def readLE (mem : List Nat) (off : Nat) : Nat → Nat
  | 0 => 0
  | n + 1 => getByte mem off + 256 * readLE mem (off + 1) n

/-- Write the `count` little-endian bytes of `v` starting at `off`. -/
def writeLE (mem : List Nat) (off v : Nat) : Nat → List Nat
  | 0 => mem
  | n + 1 => writeLE (setByte mem off (v % 256)) (off + 1) (v / 256) n

/-- Memory lists hold bytes (`uint8_t` values). -/
def MemWF (mem : List Nat) : Prop := ∀ b ∈ mem, b < 256

instance instDecidableMemWF (mem : List Nat) : Decidable (MemWF mem) :=
  inferInstanceAs (Decidable (∀ b ∈ mem, b < 256))

/-- Little-endian byte `j` of a 256-bit stack word (`intx::as_bytes`). -/
def as_bytes (w j : Nat) : Nat := w / 256 ^ j % 256

/-- `*reinterpret_cast<const uint32_t*>(&params[j])`: the little-endian 32-bit value
formed by bytes `j .. j+3` of the stack word. -/
def read_u32 (w j : Nat) : Nat :=
  as_bytes w j + 256 * as_bytes w (j + 1) + 65536 * as_bytes w (j + 2) +
    16777216 * as_bytes w (j + 3)

/-- Output offset of a 384-bit opcode: bytes 12..15 of the popped word. -/
def out_offset (w : Nat) : Nat := read_u32 w 12

/-- x-operand offset: bytes 8..11 of the popped word. -/
def x_offset (w : Nat) : Nat := read_u32 w 8

/-- y-operand offset: bytes 4..7 of the popped word. -/
def y_offset (w : Nat) : Nat := read_u32 w 4

/-- Modulus offset: bytes 0..3 of the popped word. -/
def mod_offset (w : Nat) : Nat := read_u32 w 0

/-- `max(max(x_offset, y_offset), max(out_offset, mod_offset))`. -/
def max_memory_index (w : Nat) : Nat :=
  max (max (x_offset w) (y_offset w)) (max (out_offset w) (mod_offset w))

/-- The limb base of the 384-bit kernel: limbs are 64-bit. -/
def limbBase : Nat := 2 ^ 64

/-- Modelled from the spec: `addmod384_64bitlimbs` of bigint.h (not among the provided
sources): limb-wise addition with carry propagation followed by a conditional subtraction
of `m` if the raw sum is `≥ m`; the result is stored as 48 bytes, i.e. modulo `2 ^ 384`. -/
def addmod384_64bitlimbs (x y m : Nat) : Nat :=
  (if m ≤ x + y then x + y - m else x + y) % 2 ^ 384

/-- Modelled from the spec: `subtractmod384_64bitlimbs` of bigint.h: limb-wise subtraction
with borrow, followed by a conditional addition of `m` if the subtraction underflowed. -/
def subtractmod384_64bitlimbs (x y m : Nat) : Nat :=
  if y ≤ x then (x - y) % 2 ^ 384 else (x + 2 ^ 384 - y + m) % 2 ^ 384

/-- One limb-sized Montgomery reduction step: add the multiple of `m` that clears the low
limb (as directed by the 64-bit inverse `inv`) and shift one limb down. -/
def montRedcStep (m inv t : Nat) : Nat :=
  (t + t % limbBase * inv % limbBase * m) / limbBase

/-- Modelled from the spec: `montmul384_64bitlimbs` of bigint.h, the portable fallback:
the full 384×384-bit product reduced via six limb-wise Montgomery reduction steps, with a
final conditional subtraction of `m`. -/
def montmul384_64bitlimbs (x y m inv : Nat) : Nat :=
  let t := Nat.iterate (montRedcStep m inv) 6 (x * y)
  if m ≤ t then t - m else t

/-- One interleaved step: accumulate `x` times one limb of `y`, then reduce one limb. -/
def ciosStep (x m inv t yi : Nat) : Nat := montRedcStep m inv (t + x * yi)

/-- The `n` little-endian 64-bit limbs of `v`. -/
def limbsLE : Nat → Nat → List Nat
  | 0, _ => []
  | n + 1, v => v % limbBase :: limbsLE n (v / limbBase)

/-- Modelled from the spec: `mulx_mont_384` of mulx_mont_384.h (not among the provided
sources), the performance-optimized limb-multiply-accumulate path: interleaved Montgomery
multiplication over the six limbs of `y`, with a final conditional subtraction of `m`. -/
def mulx_mont_384 (x y m inv : Nat) : Nat :=
  let t := (limbsLE 6 y).foldl (ciosStep x m inv) 0
  if m ≤ t then t - m else t

/-- `op_stop`: halt with Success. -/
def op_stop (s : ExecutionState) : Option Nat × ExecutionState :=
  s.exit .success

/-- `op_sstore`: the "debit now, correct later" wrapper around the host storage-store. -/
def op_sstore (h : Host) (pcv : Nat) (number : Int) (s : ExecutionState) :
    Option Nat × ExecutionState :=
  let correction := s.currentBlockCost - number
  let r := h.sstore { s with gasLeft := s.gasLeft + correction }
  if r.1 ≠ StatusCode.success then r.2.exit r.1
  else if r.2.gasLeft - correction < 0 then
    ExecutionState.exit { r.2 with gasLeft := r.2.gasLeft - correction } .outOfGas
  else (some (pcv + 1), { r.2 with gasLeft := r.2.gasLeft - correction })

/-- `op_jump`: pop the destination; fail with BadJumpDestination unless it fits the
program-counter type and `find_jumpdest` maps it to a valid instruction index. -/
def op_jump (a : Analysis) (s : ExecutionState) : Option Nat × ExecutionState :=
  let r := popStack s
  if int_max < r.1 then r.2.exit .badJumpDestination
  else
    let pcj := a.find_jumpdest r.1
    if pcj < 0 then r.2.exit .badJumpDestination
    else (some pcj.toNat, r.2)

/-- `op_jumpi`: behave as `op_jump` when `stack[1]` is nonzero, else skip; in both cases
one further word is popped at the end. -/
def op_jumpi (a : Analysis) (pcv : Nat) (s : ExecutionState) :
    Option Nat × ExecutionState :=
  let r := if s.stack.getD 1 0 ≠ 0 then op_jump a s else (some (pcv + 1), (popStack s).2)
  (r.1, (popStack r.2).2)

/-- `op_pc`: push the program-counter value baked in by the analysis pass. -/
def op_pc (pcv : Nat) (number : Int) (s : ExecutionState) : Option Nat × ExecutionState :=
  (some (pcv + 1), pushStack s (wordOfInt number))

/-- `op_gas`: push the true remaining gas, via the block-cost correction. -/
def op_gas (pcv : Nat) (number : Int) (s : ExecutionState) : Option Nat × ExecutionState :=
  let correction := s.currentBlockCost - number
  (some (pcv + 1), pushStack s (wordOfUInt64 (s.gasLeft + correction)))

/-- `op_push_small` / `op_push_full`: push an immediate value. -/
def op_push (pcv : Nat) (value : Nat) (s : ExecutionState) : Option Nat × ExecutionState :=
  (some (pcv + 1), pushStack s value)

/-- Unified handler signature used by the opcode table (the instruction pointer of the
source handler type is the cursor index here). -/
def Handler : Type :=
  Analysis → Host → Nat → ExecutionState → Option Nat × ExecutionState

/-- `op_invalid`: the INVALID opcode always halts with InvalidInstruction. -/
def op_invalid : Handler := fun _ _ _ s => s.exit .invalidInstruction

/-- `op_undefined`: an opcode byte undefined in the active revision halts with
UndefinedInstruction. -/
def op_undefined : Handler := fun _ _ _ s => s.exit .undefinedInstruction

/-- `op_return<status_code>`: check the (offset, size) range taken from the top two stack
words, record it as the output, and halt with the template status. -/
def op_return (code : StatusCode) (s : ExecutionState) : Option Nat × ExecutionState :=
  let offset := s.stack.getD 0 0
  let size := s.stack.getD 1 0
  let mres := check_memory s offset size
  if mres.1 then
    let s₂ := { mres.2 with output_size := size }
    let s₃ := if size ≠ 0 then { s₂ with output_offset := offset } else s₂
    s₃.exit code
  else mres.2.exit .outOfGas

/-- `op_call<Kind, Static>`: the correction wrapper around the host call capability. -/
def op_call (h : Host) (kind : CallKind) (static : Bool) (pcv : Nat) (number : Int)
    (s : ExecutionState) : Option Nat × ExecutionState :=
  let correction := s.currentBlockCost - number
  let r := h.call kind static { s with gasLeft := s.gasLeft + correction }
  if r.1 ≠ StatusCode.success then r.2.exit r.1
  else if r.2.gasLeft - correction < 0 then
    ExecutionState.exit { r.2 with gasLeft := r.2.gasLeft - correction } .outOfGas
  else (some (pcv + 1), { r.2 with gasLeft := r.2.gasLeft - correction })

/-- `op_create<Kind>`: the correction wrapper around the host create capability. -/
def op_create (h : Host) (kind : CreateKind) (pcv : Nat) (number : Int)
    (s : ExecutionState) : Option Nat × ExecutionState :=
  let correction := s.currentBlockCost - number
  let r := h.create kind { s with gasLeft := s.gasLeft + correction }
  if r.1 ≠ StatusCode.success then r.2.exit r.1
  else if r.2.gasLeft - correction < 0 then
    ExecutionState.exit { r.2 with gasLeft := r.2.gasLeft - correction } .outOfGas
  else (some (pcv + 1), { r.2 with gasLeft := r.2.gasLeft - correction })

/-- `op_selfdestruct`: halt with whatever status the host capability reports. -/
def op_selfdestruct (h : Host) (s : ExecutionState) : Option Nat × ExecutionState :=
  let r := h.selfdestruct s
  r.2.exit r.1

/-- `opx_beginblock`: the synthetic begin-block instruction performing block-level gas and
stack accounting. -/
def opx_beginblock (block : BlockInfo) (pcv : Nat) (s : ExecutionState) :
    Option Nat × ExecutionState :=
  let s₁ := { s with gasLeft := s.gasLeft - block.gas_cost }
  if s₁.gasLeft < 0 then s₁.exit .outOfGas
  else if (s₁.stack.length : Int) < block.stack_req then s₁.exit .stackUnderflow
  else if evm_stack_limit < (s₁.stack.length : Int) + block.stack_max_growth then
    s₁.exit .stackOverflow
  else (some (pcv + 1), { s₁ with currentBlockCost := block.gas_cost })

/-- `op_addmod384`: pop the packed-offsets word, bounds-check 48 bytes at the maximal
offset, and store the kernel result at the output offset; a failed check returns the null
continuation with no status set. -/
def op_addmod384 (pcv : Nat) (s : ExecutionState) : Option Nat × ExecutionState :=
  let p := popStack s
  let arg := p.1
  let mres := check_memory p.2 (max_memory_index arg) 48
  if mres.1 then
    let mem := mres.2.memory
    let x := readLE mem (x_offset arg) 48
    let y := readLE mem (y_offset arg) 48
    let m := readLE mem (mod_offset arg) 48
    (some (pcv + 1),
      { mres.2 with memory := writeLE mem (out_offset arg) (addmod384_64bitlimbs x y m) 48 })
  else (none, mres.2)

/-- `op_submod384`: as `op_addmod384` with the subtraction kernel. -/
def op_submod384 (pcv : Nat) (s : ExecutionState) : Option Nat × ExecutionState :=
  let p := popStack s
  let arg := p.1
  let mres := check_memory p.2 (max_memory_index arg) 48
  if mres.1 then
    let mem := mres.2.memory
    let x := readLE mem (x_offset arg) 48
    let y := readLE mem (y_offset arg) 48
    let m := readLE mem (mod_offset arg) 48
    (some (pcv + 1),
      { mres.2 with
        memory := writeLE mem (out_offset arg) (subtractmod384_64bitlimbs x y m) 48 })
  else (none, mres.2)

/-- `op_mulmodmont384`: bounds-check 56 bytes at the maximal offset (to also cover the
64-bit Montgomery inverse stored at `mod_offset + 48`) and store the result of the
compiled-in `mulx_mont_384` path (`USE_ASM` defaults to 1 in the source). -/
def op_mulmodmont384 (pcv : Nat) (s : ExecutionState) : Option Nat × ExecutionState :=
  let p := popStack s
  let arg := p.1
  let mres := check_memory p.2 (max_memory_index arg) 56
  if mres.1 then
    let mem := mres.2.memory
    let x := readLE mem (x_offset arg) 48
    let y := readLE mem (y_offset arg) 48
    let m := readLE mem (mod_offset arg) 48
    let inv := readLE mem (mod_offset arg + 48) 8
    (some (pcv + 1),
      { mres.2 with memory := writeLE mem (out_offset arg) (mulx_mont_384 x y m inv) 48 })
  else (none, mres.2)

/-- One dispatch round of the execution loop: fetch the instruction at the cursor and run
its handler. -/
def step (a : Analysis) (h : Host) (pcv : Nat) (s : ExecutionState) :
    Option Nat × ExecutionState :=
  match a.instrs.get? pcv with
  | none => (none, s)
  | some (.beginblock blk) => opx_beginblock blk pcv s
  | some .stop => op_stop s
  | some (.sstore n) => op_sstore h pcv n s
  | some .jump => op_jump a s
  | some .jumpi => op_jumpi a pcv s
  | some (.pc n) => op_pc pcv n s
  | some (.gas n) => op_gas pcv n s
  | some (.push v) => op_push pcv v s
  | some .invalid => op_invalid a h pcv s
  | some .undefined => op_undefined a h pcv s
  | some .ret => op_return .success s
  | some .revert => op_return .revert s
  | some (.call k st n) => op_call h k st pcv n s
  | some (.create k n) => op_create h k pcv n s
  | some .selfdestruct => op_selfdestruct h s
  | some .addmod384 => op_addmod384 pcv s
  | some .submod384 => op_submod384 pcv s
  | some .mulmodmont384 => op_mulmodmont384 pcv s

/-- The threaded execution loop (`while (instr != nullptr) instr = instr->fn(...)`),
with explicit fuel; when the fuel runs out the pending cursor is returned unchanged, so
`(run ...).1 = none` states that the loop has terminated. -/
def run (a : Analysis) (h : Host) : Nat → Option Nat → ExecutionState →
    Option Nat × ExecutionState
  | 0, c, s => (c, s)
  | _ + 1, none, s => (none, s)
  | fuel + 1, some pcv, s =>
    let r := step a h pcv s
    run a h fuel r.1 r.2

/-- The fresh execution state built by `execute`: the gas budget is `msg->gas`, the status
starts out as "running". -/
def initialState (gasBudget : Int) : ExecutionState :=
  { gasLeft := gasBudget, stack := [], memory := [], status := .running,
    currentBlockCost := 0, output_offset := 0, output_size := 0 }

/-- The result packaged at the external boundary (`evmc_result`). -/
structure ExecResult where
  status : StatusCode
  gas_left : Int
  output_offset : Nat
  output_size : Nat
  deriving DecidableEq, Repr

/-- The external entry point `execute` of execution.cpp: run the loop from the first
instruction and package the result, forcing the reported remaining gas to zero unless the
final status is Success or Revert. The first component is the pending cursor (`none` once
the loop has terminated). -/
def execute (a : Analysis) (h : Host) (gasBudget : Int) (fuel : Nat) :
    Option Nat × ExecResult :=
  let r := run a h fuel (some 0) (initialState gasBudget)
  (r.1,
    { status := r.2.status,
      gas_left :=
        if r.2.status = StatusCode.success ∨ r.2.status = StatusCode.revert then r.2.gasLeft
        else 0,
      output_offset := r.2.output_offset, output_size := r.2.output_size })

/-- One entry of the per-revision opcode table. -/
structure OpTableEntry where
  fn : Handler
  gas_cost : Int
  stack_req : Int
  stack_change : Int

/-- `create_op_table`, parameterized by the revision data it is instantiated with: the
handler implementations table and the revision's gas-cost schedule (`none` translating the
`instr::undefined` sentinel) and static stack traits. Undefined opcodes get the
`op_undefined` handler with zero gas cost. -/
def create_op_table (impls : Fin 256 → Handler) (gas_costs : Fin 256 → Option Int)
    (traits : Fin 256 → Int × Int) : Fin 256 → OpTableEntry := fun i =>
  match gas_costs i with
  | none => { fn := op_undefined, gas_cost := 0, stack_req := 0, stack_change := 0 }
  | some g =>
    { fn := impls i, gas_cost := g, stack_req := (traits i).1, stack_change := (traits i).2 }

/-! ### Invariants for the gas-reporting property -/

/-- The gas invariant maintained at every continue point of the loop: `gas_left` is
nonnegative and `gas_left` plus the pre-debited block cost never exceeds the budget. -/
def Inv (G : Int) (s : ExecutionState) : Prop :=
  0 ≤ s.gasLeft ∧ 0 ≤ s.currentBlockCost ∧ s.gasLeft + s.currentBlockCost ≤ G

/-- The gas-reporting obligation at a halt: a Success or Revert halt carries a
`gas_left` between 0 and the budget. -/
def GasOk (G : Int) (s : ExecutionState) : Prop :=
  (s.status = StatusCode.success ∨ s.status = StatusCode.revert) →
    0 ≤ s.gasLeft ∧ s.gasLeft ≤ G

/-- What one dispatch round guarantees: a continuing round preserves the invariant, a
halting round satisfies the reporting obligation. -/
def StepOk (G : Int) (r : Option Nat × ExecutionState) : Prop :=
  (∀ pc', r.1 = some pc' → Inv G r.2) ∧ (r.1 = none → GasOk G r.2)

/-- Modelled from the spec: the obligations on one host capability — it never increases
`gas_left` (gas used is nonnegative), a Success or Revert report leaves `gas_left`
nonnegative (ending execution with negative gas is a protocol violation), and the frame's
block-cost bookkeeping is not the host's to change. -/
def HostFnSound (f : ExecutionState → StatusCode × ExecutionState) : Prop :=
  ∀ s, (f s).2.gasLeft ≤ s.gasLeft ∧
    (((f s).1 = StatusCode.success ∨ (f s).1 = StatusCode.revert) →
      0 ≤ (f s).2.gasLeft) ∧
    (f s).2.currentBlockCost = s.currentBlockCost

/-- All capabilities of a host are sound. -/
def HostSound (h : Host) : Prop :=
  HostFnSound h.sstore ∧ (∀ k st, HostFnSound (h.call k st)) ∧
    (∀ k, HostFnSound (h.create k)) ∧ HostFnSound h.selfdestruct

/-- The per-instruction well-formedness guaranteed by the analysis pass: block costs and
static placeholder contributions are nonnegative. -/
def instrWF : Instr → Bool
  | .beginblock blk => decide (0 ≤ blk.gas_cost)
  | .sstore n => decide (0 ≤ n)
  | .call _ _ n => decide (0 ≤ n)
  | .create _ n => decide (0 ≤ n)
  | _ => true

/-- Every instruction of the analysis output is well-formed. -/
def AnalysisWF (a : Analysis) : Prop := ∀ i ∈ a.instrs, instrWF i = true

instance instDecidableAnalysisWF (a : Analysis) : Decidable (AnalysisWF a) :=
  inferInstanceAs (Decidable (∀ i ∈ a.instrs, instrWF i = true))

/-! ### Concrete fixtures used to instantiate the theorems -/

/-- A host whose capabilities succeed and leave the state unchanged. -/
def hostEcho : Host :=
  { sstore := fun t => (.success, t), call := fun _ _ t => (.success, t),
    create := fun _ t => (.success, t), selfdestruct := fun t => (.success, t) }

/-- A host whose capabilities report a propagated status and leave the state unchanged. -/
def hostInert : Host :=
  { sstore := fun t => (.other 0, t), call := fun _ _ t => (.other 0, t),
    create := fun _ t => (.other 0, t), selfdestruct := fun t => (.other 0, t) }

/-- An analysis with a single STOP instruction and no jump destinations. -/
def anaStop : Analysis := { instrs := [.stop], find_jumpdest := fun _ => -1 }

/-- An analysis mapping destination 4 to instruction index 2 and nothing else. -/
def anaJump : Analysis :=
  { instrs := [.jump], find_jumpdest := fun d => if d = 4 then 2 else -1 }

/-- A state with block cost 2 pre-debited, used for the correction-wrapper instance. -/
def wrapState : ExecutionState := { initialState 10 with currentBlockCost := 2 }

/-- 208 zero bytes with modulus byte `m0` at offset 0, x byte `x0` at offset 64 and y byte
`y0` at offset 112: the concrete ADDMOD384 memory layout of the spec scenario. -/
def mem384 (m0 x0 y0 : Nat) : List Nat :=
  setByte (setByte (setByte (List.replicate 208 0) 0 m0) 64 x0) 112 y0

/-- The packed-offsets stack word of the spec scenario: out=160, x=64, y=112, mod=0. -/
def packed384 : Nat := 160 * 2 ^ 96 + 64 * 2 ^ 64 + 112 * 2 ^ 32 + 0

/-- The initial state of the concrete ADDMOD384 scenario. -/
def addmodState (m0 x0 y0 : Nat) : ExecutionState :=
  { initialState 0 with stack := [packed384], memory := mem384 m0 x0 y0 }

/-- A state whose packed-offsets word places the modulus so that the 48-byte bounds check
of ADDMOD384/SUBMOD384 would pass while the 56-byte check of MULMODMONT384 fails. -/
def mont56State : ExecutionState :=
  { initialState 0 with stack := [2 ^ 32 - 50], status := .other 7 }

/-- An analysis with a single MULMODMONT384 instruction. -/
def anaMont : Analysis := { instrs := [.mulmodmont384], find_jumpdest := fun _ => -1 }

/-- The memory of the ADDMOD384 scenario state after the bounds check has grown it. -/
def addmodCheckedMem (m0 x0 y0 : Nat) : List Nat :=
  (check_memory { addmodState m0 x0 y0 with stack := [] }
    (max_memory_index packed384) 48).2.memory

/-! ### Basic facts about the memory primitives -/

theorem wordAlign_ge (n : Nat) : n ≤ wordAlign n := by
  unfold wordAlign; omega

theorem growMemory_length (mem : List Nat) (need : Nat) :
    (growMemory mem need).length = max mem.length (wordAlign need) := by
  unfold growMemory
  simp [List.length_append]
  omega

theorem growMemory_wf (mem : List Nat) (need : Nat) (h : MemWF mem) :
    MemWF (growMemory mem need) := by
  intro b hb
  unfold growMemory at hb
  rcases List.mem_append.mp hb with h1 | h2
  · exact h b h1
  · have := List.eq_of_mem_replicate h2
    omega

theorem check_memory_stack (s : ExecutionState) (offset size : Nat) :
    (check_memory s offset size).2.stack = s.stack := by
  unfold check_memory
  split <;> [rfl; skip]
  split <;> rfl

theorem check_memory_status (s : ExecutionState) (offset size : Nat) :
    (check_memory s offset size).2.status = s.status := by
  unfold check_memory
  split <;> [rfl; skip]
  split <;> rfl

theorem check_memory_gas (s : ExecutionState) (offset size : Nat) :
    (check_memory s offset size).2.gasLeft = s.gasLeft := by
  unfold check_memory
  split <;> [rfl; skip]
  split <;> rfl

theorem check_memory_blockCost (s : ExecutionState) (offset size : Nat) :
    (check_memory s offset size).2.currentBlockCost = s.currentBlockCost := by
  unfold check_memory
  split <;> [rfl; skip]
  split <;> rfl

theorem check_memory_fail (s : ExecutionState) (offset size : Nat)
    (h : (check_memory s offset size).1 = false) : (check_memory s offset size).2 = s := by
  unfold check_memory at h ⊢
  by_cases h0 : size = 0
  · simp [h0] at h
  · by_cases h1 : offset + size ≤ memoryLimit
    · simp [h0, h1] at h
    · simp [h0, h1]

theorem check_memory_ok_length (s : ExecutionState) (offset size : Nat)
    (hsz : size ≠ 0) (h : (check_memory s offset size).1 = true) :
    offset + size ≤ (check_memory s offset size).2.memory.length := by
  unfold check_memory at h ⊢
  by_cases h1 : offset + size ≤ memoryLimit
  · rw [if_neg hsz, if_pos h1]
    simp only [growMemory_length]
    have := wordAlign_ge (offset + size)
    omega
  · rw [if_neg hsz, if_neg h1] at h
    cases h

theorem check_memory_wf (s : ExecutionState) (offset size : Nat) (h : MemWF s.memory) :
    MemWF (check_memory s offset size).2.memory := by
  unfold check_memory
  split
  · exact h
  · split
    · exact growMemory_wf _ _ h
    · exact h

theorem getByte_wf (mem : List Nat) (i : Nat) (h : MemWF mem) : getByte mem i < 256 := by
  induction mem generalizing i with
  | nil => simp [getByte]
  | cons b bs ih =>
    cases i with
    | zero => exact h b (List.mem_cons_self b bs)
    | succ j => exact ih j fun c hc => h c (List.mem_cons_of_mem b hc)

theorem readLE_lt (mem : List Nat) (off n : Nat) (h : MemWF mem) :
    readLE mem off n < 256 ^ n := by
  induction n generalizing off with
  | zero => simp [readLE]
  | succ k ih =>
    have h1 := getByte_wf mem off h
    have h2 := ih (off + 1)
    have : (256:Nat) ^ (k+1) = 256 * 256 ^ k := by ring
    simp only [readLE]
    omega

theorem setByte_length (mem : List Nat) (i v : Nat) :
    (setByte mem i v).length = mem.length := by
  induction mem generalizing i with
  | nil => rfl
  | cons b bs ih =>
    cases i with
    | zero => rfl
    | succ j => simp [setByte, ih]

theorem setByte_wf (mem : List Nat) (i v : Nat) (h : MemWF mem) (hv : v < 256) :
    MemWF (setByte mem i v) := by
  induction mem generalizing i with
  | nil => exact h
  | cons b bs ih =>
    cases i with
    | zero =>
      intro c hc
      rcases List.mem_cons.mp hc with h1 | h2
      · omega
      · exact h c (List.mem_cons_of_mem b h2)
    | succ j =>
      intro c hc
      rcases List.mem_cons.mp hc with h1 | h2
      · exact h c (h1 ▸ List.mem_cons_self b bs)
      · exact ih j (fun d hd => h d (List.mem_cons_of_mem b hd)) c h2

theorem getByte_setByte_lt (mem : List Nat) (i j v : Nat) (h : j < i) :
    getByte (setByte mem i v) j = getByte mem j := by
  induction mem generalizing i j with
  | nil => rfl
  | cons b bs ih =>
    cases i with
    | zero => omega
    | succ k =>
      cases j with
      | zero => rfl
      | succ l => exact ih k l (by omega)

theorem getByte_setByte_eq (mem : List Nat) (i v : Nat) (h : i < mem.length) :
    getByte (setByte mem i v) i = v := by
  induction mem generalizing i with
  | nil => simp at h
  | cons b bs ih =>
    cases i with
    | zero => rfl
    | succ k => exact ih k (by simpa using h)

theorem writeLE_length (mem : List Nat) (off v n : Nat) :
    (writeLE mem off v n).length = mem.length := by
  induction n generalizing mem off v with
  | zero => rfl
  | succ k ih => simp [writeLE, ih, setByte_length]

theorem writeLE_wf (mem : List Nat) (off v n : Nat) (h : MemWF mem) :
    MemWF (writeLE mem off v n) := by
  induction n generalizing mem off v with
  | zero => exact h
  | succ k ih =>
    exact ih _ _ _ (setByte_wf mem off (v % 256) h (Nat.mod_lt v (by norm_num)))

theorem getByte_writeLE_lt (mem : List Nat) (off v n j : Nat) (h : j < off) :
    getByte (writeLE mem off v n) j = getByte mem j := by
  induction n generalizing mem off v with
  | zero => rfl
  | succ k ih =>
    simp only [writeLE]
    rw [ih _ _ _ (by omega), getByte_setByte_lt _ _ _ _ h]

theorem readLE_writeLE (mem : List Nat) (off v n : Nat) (h : off + n ≤ mem.length) :
    readLE (writeLE mem off v n) off n = v % 256 ^ n := by
  induction n generalizing mem off v with
  | zero => simp [readLE, writeLE, Nat.mod_one]
  | succ k ih =>
    simp only [readLE, writeLE]
    rw [getByte_writeLE_lt _ _ _ _ _ (by omega),
      getByte_setByte_eq _ _ _ (by omega),
      ih _ _ _ (by rw [setByte_length]; omega)]
    have : (256:Nat) ^ (k + 1) = 256 * 256 ^ k := by ring
    rw [this, Nat.mod_mul]

/-! ### C1: the begin-block contract -/

/-- C1: for every basic block and every execution state, `opx_beginblock` subtracts
`block.gas_cost` from `gas_left` and halts with OutOfGas if the result is negative;
otherwise it halts with StackUnderflow if the stack depth is below `block.stack_req`;
otherwise it halts with StackOverflow if the depth plus `block.stack_max_growth` exceeds
the stack limit of 1024; otherwise it records `block.gas_cost` as `current_block_cost` and
advances to the next instruction. -/
theorem beginblock_contract (block : BlockInfo) (pcv : Nat) (s : ExecutionState) :
    (s.gasLeft - block.gas_cost < 0 →
      opx_beginblock block pcv s =
        (none, { s with gasLeft := s.gasLeft - block.gas_cost, status := .outOfGas })) ∧
    (0 ≤ s.gasLeft - block.gas_cost → (s.stack.length : Int) < block.stack_req →
      opx_beginblock block pcv s =
        (none, { s with gasLeft := s.gasLeft - block.gas_cost, status := .stackUnderflow })) ∧
    (0 ≤ s.gasLeft - block.gas_cost → block.stack_req ≤ (s.stack.length : Int) →
      1024 < (s.stack.length : Int) + block.stack_max_growth →
      opx_beginblock block pcv s =
        (none, { s with gasLeft := s.gasLeft - block.gas_cost, status := .stackOverflow })) ∧
    (0 ≤ s.gasLeft - block.gas_cost → block.stack_req ≤ (s.stack.length : Int) →
      (s.stack.length : Int) + block.stack_max_growth ≤ 1024 →
      opx_beginblock block pcv s =
        (some (pcv + 1),
          { s with gasLeft := s.gasLeft - block.gas_cost,
                   currentBlockCost := block.gas_cost })) := by
  refine ⟨fun h1 => ?_, fun h1 h2 => ?_, fun h1 h2 h3 => ?_, fun h1 h2 h3 => ?_⟩ <;>
    simp only [opx_beginblock, ExecutionState.exit, evm_stack_limit] <;>
    [rw [if_pos (by simpa using h1)];
     rw [if_neg (by simpa using h1), if_pos (by simpa using h2)];
     rw [if_neg (by simpa using h1), if_neg (by simpa using h2), if_pos (by simpa using h3)];
     rw [if_neg (by simpa using h1), if_neg (by simpa using h2), if_neg (by simpa using h3)]]

theorem beginblock_contract_case4 :
    opx_beginblock { gas_cost := 3, stack_req := 0, stack_max_growth := 2 } 7
        (initialState 10) =
      (some 8, { initialState 10 with gasLeft := 7, currentBlockCost := 3 }) :=
  (beginblock_contract { gas_cost := 3, stack_req := 0, stack_max_growth := 2 } 7
    (initialState 10)).2.2.2 (by decide) (by decide) (by decide)

/-! ### C10: INVALID versus undefined opcodes -/

/-- C10: `op_invalid` always halts the frame with InvalidInstruction; an opcode with no
entry in the active revision's table is installed as `op_undefined` by `create_op_table`,
and `op_undefined` always halts the frame with UndefinedInstruction; the two statuses are
distinct. -/
theorem invalid_undefined_distinct :
    (∀ (a : Analysis) (h : Host) (pcv : Nat) (s : ExecutionState),
      op_invalid a h pcv s = (none, { s with status := .invalidInstruction })) ∧
    (∀ (impls : Fin 256 → Handler) (gas_costs : Fin 256 → Option Int)
        (traits : Fin 256 → Int × Int) (i : Fin 256), gas_costs i = none →
      ((create_op_table impls gas_costs traits i).fn = op_undefined ∧
        (create_op_table impls gas_costs traits i).gas_cost = 0)) ∧
    (∀ (a : Analysis) (h : Host) (pcv : Nat) (s : ExecutionState),
      op_undefined a h pcv s = (none, { s with status := .undefinedInstruction })) ∧
    StatusCode.invalidInstruction ≠ StatusCode.undefinedInstruction := by
  refine ⟨fun a h pcv s => rfl, fun impls gas_costs traits i hi => ?_,
    fun a h pcv s => rfl, by decide⟩
  simp [create_op_table, hi]

theorem invalid_undefined_distinct_witness :
    (create_op_table (fun _ => op_invalid) (fun _ => none) (fun _ => (0, 0)) 0).fn =
        op_undefined ∧
      (create_op_table (fun _ => op_invalid) (fun _ => none) (fun _ => (0, 0)) 0).gas_cost
        = 0 :=
  invalid_undefined_distinct.2.1 (fun _ => op_invalid) (fun _ => none) (fun _ => (0, 0)) 0
    rfl

/-! ### C3: the gas-correction wrapper of the dynamic-cost handlers -/

/-- C3: each dynamic-cost handler (`op_sstore`, `op_call` for
CALL/CALLCODE/DELEGATECALL/STATICCALL, `op_create` for CREATE/CREATE2) first adds
`gas_left_correction = current_block_cost - instr->arg.number` to `gas_left`, then invokes
the underlying host operation; a non-success status halts the frame immediately with that
status; on success the handler re-debits the correction and halts with OutOfGas exactly
when the resulting `gas_left` is negative, otherwise execution continues with the next
instruction. -/
theorem dynamic_cost_correction_pattern (h : Host) (pcv : Nat) (n : Int) (kind : CallKind)
    (static : Bool) (ckind : CreateKind) (s : ExecutionState) (σ₁ σ₂ σ₃ : StatusCode)
    (t₁ t₂ t₃ : ExecutionState)
    (h1 : h.sstore { s with gasLeft := s.gasLeft + (s.currentBlockCost - n) } = (σ₁, t₁))
    (h2 : h.call kind static { s with gasLeft := s.gasLeft + (s.currentBlockCost - n) } =
      (σ₂, t₂))
    (h3 : h.create ckind { s with gasLeft := s.gasLeft + (s.currentBlockCost - n) } =
      (σ₃, t₃)) :
    ((σ₁ ≠ .success → op_sstore h pcv n s = (none, { t₁ with status := σ₁ })) ∧
     (σ₁ = .success → t₁.gasLeft - (s.currentBlockCost - n) < 0 →
       op_sstore h pcv n s =
         (none, { t₁ with gasLeft := t₁.gasLeft - (s.currentBlockCost - n),
                          status := .outOfGas })) ∧
     (σ₁ = .success → 0 ≤ t₁.gasLeft - (s.currentBlockCost - n) →
       op_sstore h pcv n s =
         (some (pcv + 1),
           { t₁ with gasLeft := t₁.gasLeft - (s.currentBlockCost - n) }))) ∧
    ((σ₂ ≠ .success → op_call h kind static pcv n s = (none, { t₂ with status := σ₂ })) ∧
     (σ₂ = .success → t₂.gasLeft - (s.currentBlockCost - n) < 0 →
       op_call h kind static pcv n s =
         (none, { t₂ with gasLeft := t₂.gasLeft - (s.currentBlockCost - n),
                          status := .outOfGas })) ∧
     (σ₂ = .success → 0 ≤ t₂.gasLeft - (s.currentBlockCost - n) →
       op_call h kind static pcv n s =
         (some (pcv + 1),
           { t₂ with gasLeft := t₂.gasLeft - (s.currentBlockCost - n) }))) ∧
    ((σ₃ ≠ .success → op_create h ckind pcv n s = (none, { t₃ with status := σ₃ })) ∧
     (σ₃ = .success → t₃.gasLeft - (s.currentBlockCost - n) < 0 →
       op_create h ckind pcv n s =
         (none, { t₃ with gasLeft := t₃.gasLeft - (s.currentBlockCost - n),
                          status := .outOfGas })) ∧
     (σ₃ = .success → 0 ≤ t₃.gasLeft - (s.currentBlockCost - n) →
       op_create h ckind pcv n s =
         (some (pcv + 1),
           { t₃ with gasLeft := t₃.gasLeft - (s.currentBlockCost - n) }))) := by
  refine ⟨⟨fun hσ => ?_, fun hσ hg => ?_, fun hσ hg => ?_⟩,
    ⟨fun hσ => ?_, fun hσ hg => ?_, fun hσ hg => ?_⟩,
    ⟨fun hσ => ?_, fun hσ hg => ?_, fun hσ hg => ?_⟩⟩ <;>
    simp only [op_sstore, op_call, op_create, ExecutionState.exit, h1, h2, h3] <;>
    [rw [if_pos hσ]; rw [if_neg (by simp [hσ]), if_pos hg];
     rw [if_neg (by simp [hσ]), if_neg (by omega)];
     rw [if_pos hσ]; rw [if_neg (by simp [hσ]), if_pos hg];
     rw [if_neg (by simp [hσ]), if_neg (by omega)];
     rw [if_pos hσ]; rw [if_neg (by simp [hσ]), if_pos hg];
     rw [if_neg (by simp [hσ]), if_neg (by omega)]]

theorem dynamic_cost_correction_pattern_instance :
    op_sstore hostEcho 0 1 wrapState = (some 1, { wrapState with gasLeft := 10 }) :=
  (dynamic_cost_correction_pattern hostEcho 0 1 .call false .create wrapState
      _ _ _ _ _ _ rfl rfl rfl).1.2.2 rfl (by decide)

/-! ### C4: JUMP and JUMPI -/

theorem op_jump_fail (a : Analysis) (s : ExecutionState) (dst : Nat) (rest : List Nat)
    (hstack : s.stack = dst :: rest) (hbad : int_max < dst ∨ a.find_jumpdest dst < 0) :
    op_jump a s = (none, { s with stack := rest, status := .badJumpDestination }) := by
  simp only [op_jump, popStack, hstack, List.headD, List.tail_cons, ExecutionState.exit]
  rcases hbad with hbig | hneg
  · rw [if_pos hbig]
  · by_cases hbig : int_max < dst
    · rw [if_pos hbig]
    · rw [if_neg hbig, if_pos hneg]

theorem op_jump_ok (a : Analysis) (s : ExecutionState) (dst : Nat) (rest : List Nat)
    (hstack : s.stack = dst :: rest) (hfit : dst ≤ int_max)
    (hval : 0 ≤ a.find_jumpdest dst) :
    op_jump a s = (some (a.find_jumpdest dst).toNat, { s with stack := rest }) := by
  simp only [op_jump, popStack, hstack, List.headD, List.tail_cons, ExecutionState.exit]
  rw [if_neg (by omega), if_neg (by omega)]

/-- C4: `op_jump` pops the destination and halts with BadJumpDestination exactly when the
destination exceeds the maximum `int` value or `find_jumpdest` yields no valid instruction
index; otherwise the cursor is redirected to the looked-up index. `op_jumpi` pops the
destination and the condition; with a nonzero condition it behaves exactly as JUMP and
with a zero condition it discards both values and advances to the next instruction. -/
theorem jump_jumpi_contract (a : Analysis) (pcv : Nat) (s : ExecutionState)
    (dst cond : Nat) (rest : List Nat) :
    (s.stack = dst :: rest →
      ((int_max < dst ∨ a.find_jumpdest dst < 0 →
         op_jump a s = (none, { s with stack := rest, status := .badJumpDestination })) ∧
       (dst ≤ int_max → 0 ≤ a.find_jumpdest dst →
         op_jump a s = (some (a.find_jumpdest dst).toNat, { s with stack := rest })))) ∧
    (s.stack = dst :: cond :: rest →
      ((cond ≠ 0 → int_max < dst ∨ a.find_jumpdest dst < 0 →
         op_jumpi a pcv s =
           (none, { s with stack := rest, status := .badJumpDestination })) ∧
       (cond ≠ 0 → dst ≤ int_max → 0 ≤ a.find_jumpdest dst →
         op_jumpi a pcv s = (some (a.find_jumpdest dst).toNat, { s with stack := rest })) ∧
       (cond = 0 → op_jumpi a pcv s = (some (pcv + 1), { s with stack := rest })))) := by
  constructor
  · intro hstack
    exact ⟨fun hbad => op_jump_fail a s dst rest hstack hbad,
      fun hfit hval => op_jump_ok a s dst rest hstack hfit hval⟩
  · intro hstack
    refine ⟨fun hc hbad => ?_, fun hc hfit hval => ?_, fun hc => ?_⟩
    · simp only [op_jumpi, hstack, List.getD_cons_succ, List.getD_cons_zero]
      rw [if_pos hc, op_jump_fail a s dst (cond :: rest) hstack hbad]
      simp [popStack]
    · simp only [op_jumpi, hstack, List.getD_cons_succ, List.getD_cons_zero]
      rw [if_pos hc, op_jump_ok a s dst (cond :: rest) hstack hfit hval]
      simp [popStack]
    · simp only [op_jumpi, hstack, List.getD_cons_succ, List.getD_cons_zero]
      rw [if_neg (by simp [hc])]
      simp [popStack, hstack]

theorem jump_jumpi_contract_instance :
    op_jump anaJump { initialState 9 with stack := [4, 0] } =
      (some 2, { initialState 9 with stack := [0] }) :=
  ((jump_jumpi_contract anaJump 0 { initialState 9 with stack := [4, 0] } 4 0 [0]).1
    rfl).2 (by decide) (by decide)

/-! ### C8: RETURN and REVERT -/

/-- C8: RETURN and REVERT take (offset, size) from the top two stack words; if the bounds
check on that range fails the frame halts with OutOfGas; otherwise the range is recorded
as the frame's output and the frame halts with Success for RETURN and Revert for REVERT
(the dispatch conjuncts pin the template instantiations). -/
theorem return_revert_contract (a : Analysis) (h : Host) (code : StatusCode) (pcv : Nat)
    (s : ExecutionState) (offset size : Nat) (rest : List Nat)
    (hstack : s.stack = offset :: size :: rest) :
    (a.instrs.get? pcv = some .ret → step a h pcv s = op_return .success s) ∧
    (a.instrs.get? pcv = some .revert → step a h pcv s = op_return .revert s) ∧
    ((check_memory s offset size).1 = false →
      op_return code s = (none, { s with status := .outOfGas })) ∧
    ((check_memory s offset size).1 = true → size ≠ 0 →
      op_return code s =
        (none, { (check_memory s offset size).2 with
                  output_size := size, output_offset := offset, status := code })) ∧
    ((check_memory s offset size).1 = true → size = 0 →
      op_return code s =
        (none, { (check_memory s offset size).2 with
                  output_size := 0, status := code })) := by
  refine ⟨fun hi => ?_, fun hi => ?_, fun hfail => ?_, fun hok hsz => ?_,
    fun hok hsz => ?_⟩
  · rw [List.get?_eq_getElem?] at hi
    simp [step, hi]
  · rw [List.get?_eq_getElem?] at hi
    simp [step, hi]
  · simp only [op_return, hstack, List.getD_cons_zero, List.getD_cons_succ,
      ExecutionState.exit]
    rw [if_neg (by simp [hfail]), check_memory_fail _ _ _ hfail, hstack]
  · simp only [op_return, hstack, List.getD_cons_zero, List.getD_cons_succ,
      ExecutionState.exit]
    rw [if_pos hok, if_pos hsz]
  · subst hsz
    simp only [op_return, hstack, List.getD_cons_zero, List.getD_cons_succ,
      ExecutionState.exit]
    rw [if_pos hok, if_neg (by simp)]

theorem return_revert_contract_instance :
    op_return .revert { initialState 3 with stack := [1, 2] } =
      (none, { initialState 3 with
                stack := [1, 2], memory := List.replicate 32 0,
                output_size := 2, output_offset := 1, status := .revert }) := by
  have := (return_revert_contract anaStop hostEcho .revert 0
    { initialState 3 with stack := [1, 2] } 1 2 [] rfl).2.2.2.1 (by decide) (by decide)
  rw [this]
  decide

/-! ### C6: addressing and bounds checks of the 384-bit opcodes -/

theorem read_u32_eq (w j : Nat) : read_u32 w j = w / 256 ^ j % 2 ^ 32 := by
  unfold read_u32 as_bytes
  have e1 : (256:Nat) ^ (j + 1) = 256 ^ j * 256 := by ring
  have e2 : (256:Nat) ^ (j + 2) = 256 ^ j * 65536 := by
    rw [pow_add]; norm_num
  have e3 : (256:Nat) ^ (j + 3) = 256 ^ j * 16777216 := by
    rw [pow_add]; norm_num
  rw [e1, e2, e3, ← Nat.div_div_eq_div_mul, ← Nat.div_div_eq_div_mul,
    ← Nat.div_div_eq_div_mul]
  omega

theorem op_addmod384_stack (pcv : Nat) (s : ExecutionState) :
    (op_addmod384 pcv s).2.stack = s.stack.tail := by
  simp only [op_addmod384, popStack]
  split <;> simp [check_memory_stack]

theorem op_submod384_stack (pcv : Nat) (s : ExecutionState) :
    (op_submod384 pcv s).2.stack = s.stack.tail := by
  simp only [op_submod384, popStack]
  split <;> simp [check_memory_stack]

theorem op_mulmodmont384_stack (pcv : Nat) (s : ExecutionState) :
    (op_mulmodmont384 pcv s).2.stack = s.stack.tail := by
  simp only [op_mulmodmont384, popStack]
  split <;> simp [check_memory_stack]

theorem op_addmod384_cursor (pcv : Nat) (s : ExecutionState) :
    (op_addmod384 pcv s).1 =
      if (check_memory { s with stack := s.stack.tail }
            (max_memory_index (s.stack.headD 0)) 48).1 = true
      then some (pcv + 1) else none := by
  simp only [op_addmod384, popStack]
  split <;> rename_i hc <;> simp [hc]

theorem op_submod384_cursor (pcv : Nat) (s : ExecutionState) :
    (op_submod384 pcv s).1 =
      if (check_memory { s with stack := s.stack.tail }
            (max_memory_index (s.stack.headD 0)) 48).1 = true
      then some (pcv + 1) else none := by
  simp only [op_submod384, popStack]
  split <;> rename_i hc <;> simp [hc]

theorem op_mulmodmont384_cursor (pcv : Nat) (s : ExecutionState) :
    (op_mulmodmont384 pcv s).1 =
      if (check_memory { s with stack := s.stack.tail }
            (max_memory_index (s.stack.headD 0)) 56).1 = true
      then some (pcv + 1) else none := by
  simp only [op_mulmodmont384, popStack]
  split <;> rename_i hc <;> simp [hc]

/-- C6: each 384-bit opcode pops exactly one stack word and decodes its low 128 bits as
four 32-bit byte offsets, from the least-significant 32 bits upward: modulus-offset,
y-offset, x-offset, output-offset; the bounds check performed is
`check_memory(max of the four offsets, 48)` for ADDMOD384 and SUBMOD384 and
`check_memory(max, 56)` for MULMODMONT384, which also reads its 64-bit Montgomery inverse
at `modulus-offset + 48`. -/
theorem packed_offset_addressing (s : ExecutionState) (pcv : Nat) (w : Nat)
    (rest : List Nat) (hstack : s.stack = w :: rest) :
    (mod_offset w = w % 2 ^ 32 ∧ y_offset w = w / 2 ^ 32 % 2 ^ 32 ∧
      x_offset w = w / 2 ^ 64 % 2 ^ 32 ∧ out_offset w = w / 2 ^ 96 % 2 ^ 32) ∧
    ((op_addmod384 pcv s).2.stack = rest ∧ (op_submod384 pcv s).2.stack = rest ∧
      (op_mulmodmont384 pcv s).2.stack = rest) ∧
    ((op_addmod384 pcv s).1 =
        (if (check_memory { s with stack := rest } (max_memory_index w) 48).1 = true
          then some (pcv + 1) else none) ∧
      (op_submod384 pcv s).1 =
        (if (check_memory { s with stack := rest } (max_memory_index w) 48).1 = true
          then some (pcv + 1) else none) ∧
      (op_mulmodmont384 pcv s).1 =
        (if (check_memory { s with stack := rest } (max_memory_index w) 56).1 = true
          then some (pcv + 1) else none)) ∧
    ((check_memory { s with stack := rest } (max_memory_index w) 56).1 = true →
      (op_mulmodmont384 pcv s).2.memory =
        writeLE
          (check_memory { s with stack := rest } (max_memory_index w) 56).2.memory
          (out_offset w)
          (mulx_mont_384
            (readLE (check_memory { s with stack := rest }
              (max_memory_index w) 56).2.memory (x_offset w) 48)
            (readLE (check_memory { s with stack := rest }
              (max_memory_index w) 56).2.memory (y_offset w) 48)
            (readLE (check_memory { s with stack := rest }
              (max_memory_index w) 56).2.memory (mod_offset w) 48)
            (readLE (check_memory { s with stack := rest }
              (max_memory_index w) 56).2.memory (mod_offset w + 48) 8))
          48) := by
  refine ⟨⟨?_, ?_, ?_, ?_⟩, ⟨?_, ?_, ?_⟩, ⟨?_, ?_, ?_⟩, fun hok => ?_⟩
  · rw [mod_offset, read_u32_eq]; norm_num
  · rw [y_offset, read_u32_eq]; norm_num
  · rw [x_offset, read_u32_eq]; norm_num
  · rw [out_offset, read_u32_eq]; norm_num
  · rw [op_addmod384_stack, hstack]; rfl
  · rw [op_submod384_stack, hstack]; rfl
  · rw [op_mulmodmont384_stack, hstack]; rfl
  · rw [op_addmod384_cursor, hstack]; rfl
  · rw [op_submod384_cursor, hstack]; rfl
  · rw [op_mulmodmont384_cursor, hstack]; rfl
  · simp only [op_mulmodmont384, popStack, hstack, List.headD, List.tail_cons]
    rw [if_pos hok]

theorem packed_offset_addressing_instance :
    mod_offset packed384 = 0 ∧ y_offset packed384 = 112 ∧ x_offset packed384 = 64 ∧
      out_offset packed384 = 160 ∧
      (op_addmod384 0 (addmodState 1 2 0)).1 = some 1 := by
  have h := packed_offset_addressing (addmodState 1 2 0) 0 packed384 [] rfl
  refine ⟨?_, ?_, ?_, ?_, ?_⟩
  · rw [h.1.1]; decide
  · rw [h.1.2.1]; decide
  · rw [h.1.2.2.1]; decide
  · rw [h.1.2.2.2]; decide
  · rw [h.2.2.1.1]; decide

/-! ### C7: a failed bounds check returns the halt sentinel with no status set -/

theorem run_none (a : Analysis) (h : Host) (fuel : Nat) (s : ExecutionState) :
    run a h fuel none s = (none, s) := by
  cases fuel <;> rfl

/-- C7: when the bounds check of ADDMOD384 or SUBMOD384 (48 bytes at the maximal offset)
or of MULMODMONT384 (56 bytes at the maximal offset) fails, that handler returns the null
continuation without setting any halting status, and the execution loop then terminates
with the frame's status still holding the value it had before the instruction rather than
a fault status — for each of the three opcodes under its own bounds check only. -/
theorem checkmem_fail_keeps_status (a : Analysis) (h : Host) (pcv : Nat)
    (s : ExecutionState) (w : Nat) (rest : List Nat) (hstack : s.stack = w :: rest) :
    ((check_memory { s with stack := rest } (max_memory_index w) 48).1 = false →
      op_addmod384 pcv s = (none, { s with stack := rest }) ∧
        op_submod384 pcv s = (none, { s with stack := rest })) ∧
    ((check_memory { s with stack := rest } (max_memory_index w) 56).1 = false →
      op_mulmodmont384 pcv s = (none, { s with stack := rest })) ∧
    ({ s with stack := rest } : ExecutionState).status = s.status ∧
    (∀ fuel : Nat,
      (a.instrs.get? pcv = some .addmod384 →
        (check_memory { s with stack := rest } (max_memory_index w) 48).1 = false →
        run a h (fuel + 1) (some pcv) s = (none, { s with stack := rest })) ∧
      (a.instrs.get? pcv = some .submod384 →
        (check_memory { s with stack := rest } (max_memory_index w) 48).1 = false →
        run a h (fuel + 1) (some pcv) s = (none, { s with stack := rest })) ∧
      (a.instrs.get? pcv = some .mulmodmont384 →
        (check_memory { s with stack := rest } (max_memory_index w) 56).1 = false →
        run a h (fuel + 1) (some pcv) s = (none, { s with stack := rest }))) := by
  have e1 : (check_memory { s with stack := rest } (max_memory_index w) 48).1 = false →
      op_addmod384 pcv s = (none, { s with stack := rest }) := by
    intro hf
    simp only [op_addmod384, popStack, hstack, List.headD, List.tail_cons]
    rw [if_neg (by simp [hf]), check_memory_fail _ _ _ hf]
  have e2 : (check_memory { s with stack := rest } (max_memory_index w) 48).1 = false →
      op_submod384 pcv s = (none, { s with stack := rest }) := by
    intro hf
    simp only [op_submod384, popStack, hstack, List.headD, List.tail_cons]
    rw [if_neg (by simp [hf]), check_memory_fail _ _ _ hf]
  have e3 : (check_memory { s with stack := rest } (max_memory_index w) 56).1 = false →
      op_mulmodmont384 pcv s = (none, { s with stack := rest }) := by
    intro hf
    simp only [op_mulmodmont384, popStack, hstack, List.headD, List.tail_cons]
    rw [if_neg (by simp [hf]), check_memory_fail _ _ _ hf]
  have eloop : ∀ fuel : Nat, step a h pcv s = (none, { s with stack := rest }) →
      run a h (fuel + 1) (some pcv) s = (none, { s with stack := rest }) := by
    intro fuel hstep
    show run a h fuel (step a h pcv s).1 (step a h pcv s).2 = _
    rw [hstep]
    exact run_none a h fuel _
  refine ⟨fun hf => ⟨e1 hf, e2 hf⟩, e3, rfl, fun fuel => ⟨?_, ?_, ?_⟩⟩
  · intro hi hf
    refine eloop fuel ?_
    have hd : step a h pcv s = op_addmod384 pcv s := by
      rw [List.get?_eq_getElem?] at hi
      simp [step, hi]
    rw [hd]
    exact e1 hf
  · intro hi hf
    refine eloop fuel ?_
    have hd : step a h pcv s = op_submod384 pcv s := by
      rw [List.get?_eq_getElem?] at hi
      simp [step, hi]
    rw [hd]
    exact e2 hf
  · intro hi hf
    refine eloop fuel ?_
    have hd : step a h pcv s = op_mulmodmont384 pcv s := by
      rw [List.get?_eq_getElem?] at hi
      simp [step, hi]
    rw [hd]
    exact e3 hf

theorem checkmem_fail_keeps_status_instance :
    op_mulmodmont384 0 mont56State = (none, { mont56State with stack := [] }) ∧
      (op_mulmodmont384 0 mont56State).2.status = StatusCode.other 7 ∧
      run anaMont hostEcho 3 (some 0) mont56State =
        (none, { mont56State with stack := [] }) := by
  have h := checkmem_fail_keeps_status anaMont hostEcho 0 mont56State (2 ^ 32 - 50) []
    rfl
  refine ⟨h.2.1 (by decide), ?_, (h.2.2.2 2).2.2 rfl (by decide)⟩
  rw [h.2.1 (by decide)]
  rfl

/-! ### C5: ADDMOD384 computes an add-then-reduce, full reduction only for reduced
operands -/

set_option maxRecDepth 40000 in
set_option exponentiation.threshold 500 in
/-- C5 counterexample: with modulus 1 at offset 0, x = 2 at offset 64, y = 0 at offset
112 and output at offset 160 (the packed word of the spec scenario), the bounds check
succeeds and the operands read back as x = 2, y = 0, m = 1, but the 48 bytes stored at
the output offset encode 1, whereas (x + y) mod m = 0: the claimed identity fails for an
operand not below the modulus. -/
theorem addmod384_not_full_reduction :
    (check_memory { addmodState 1 2 0 with stack := [] }
        (max_memory_index packed384) 48).1 = true ∧
    readLE (addmodCheckedMem 1 2 0) (x_offset packed384) 48 = 2 ∧
    readLE (addmodCheckedMem 1 2 0) (y_offset packed384) 48 = 0 ∧
    readLE (addmodCheckedMem 1 2 0) (mod_offset packed384) 48 = 1 ∧
    readLE (op_addmod384 0 (addmodState 1 2 0)).2.memory (out_offset packed384) 48 = 1 ∧
    (2 + 0) % 1 = 0 := by
  decide

/-- C5 (amended): for every execution of ADDMOD384 whose bounds check succeeds, with
operands x and y and modulus m read as 48-byte little-endian values at the decoded
offsets, and provided x and y are below m, the 48 bytes at the decoded output offset
afterwards hold the little-endian encoding of (x + y) mod m. -/
theorem addmod384_reduces (s : ExecutionState) (pcv w x y m : Nat) (rest : List Nat)
    (hstack : s.stack = w :: rest) (hwf : MemWF s.memory)
    (hok : (check_memory { s with stack := rest } (max_memory_index w) 48).1 = true)
    (hx : x = readLE (check_memory { s with stack := rest }
      (max_memory_index w) 48).2.memory (x_offset w) 48)
    (hy : y = readLE (check_memory { s with stack := rest }
      (max_memory_index w) 48).2.memory (y_offset w) 48)
    (hm : m = readLE (check_memory { s with stack := rest }
      (max_memory_index w) 48).2.memory (mod_offset w) 48)
    (hxm : x < m) (hym : y < m) :
    readLE (op_addmod384 pcv s).2.memory (out_offset w) 48 = (x + y) % m := by
  have hmwf : MemWF (check_memory { s with stack := rest }
      (max_memory_index w) 48).2.memory :=
    check_memory_wf _ _ _ hwf
  have hmlt : m < 2 ^ 384 := by
    rw [hm]
    have := readLE_lt (check_memory { s with stack := rest }
      (max_memory_index w) 48).2.memory (mod_offset w) 48 hmwf
    calc readLE _ (mod_offset w) 48 < 256 ^ 48 := this
    _ = 2 ^ 384 := by norm_num
  have hmax : out_offset w ≤ max_memory_index w := by
    unfold max_memory_index
    omega
  have hlen := check_memory_ok_length { s with stack := rest } (max_memory_index w) 48
    (by norm_num) hok
  have hout : out_offset w + 48 ≤ (check_memory { s with stack := rest }
      (max_memory_index w) 48).2.memory.length := by omega
  simp only [op_addmod384, popStack, hstack, List.headD, List.tail_cons]
  rw [if_pos hok]
  simp only
  rw [readLE_writeLE _ _ _ _ hout, ← hx, ← hy, ← hm]
  unfold addmod384_64bitlimbs
  rw [show (256:Nat) ^ 48 = 2 ^ 384 from by norm_num]
  by_cases hc : m ≤ x + y
  · rw [if_pos hc, Nat.mod_eq_of_lt (by omega), Nat.mod_eq_of_lt (by omega),
      Nat.mod_eq_sub_mod hc, Nat.mod_eq_of_lt (by omega)]
  · rw [if_neg hc, Nat.mod_eq_of_lt (by omega), Nat.mod_eq_of_lt (by omega),
      Nat.mod_eq_of_lt (by omega)]

set_option maxRecDepth 40000 in
set_option exponentiation.threshold 500 in
theorem addmod384_reduces_instance :
    readLE (op_addmod384 0 (addmodState 7 3 5)).2.memory (out_offset packed384) 48 =
      (3 + 5) % 7 :=
  addmod384_reduces (addmodState 7 3 5) 0 packed384 3 5 7 [] rfl (by decide) (by decide)
    (by decide) (by decide) (by decide) (by decide) (by decide)

/-! ### C9: the two MULMODMONT384 paths agree -/

theorem montRedcStep_shift (m inv a c : Nat) :
    montRedcStep m inv (a + limbBase * c) = montRedcStep m inv a + c := by
  unfold montRedcStep
  rw [Nat.add_mul_mod_self_left]
  rw [show a + limbBase * c + a % limbBase * inv % limbBase * m =
      a + a % limbBase * inv % limbBase * m + limbBase * c from by ring]
  rw [Nat.add_mul_div_left _ _ (show 0 < limbBase from by rw [limbBase]; positivity)]

theorem foldl_cios_limbs (x m inv : Nat) : ∀ (n v T : Nat),
    (limbsLE n v).foldl (ciosStep x m inv) T =
      Nat.iterate (montRedcStep m inv) n (T + x * (v % limbBase ^ n))
  | 0, v, T => by simp [limbsLE, Nat.mod_one]
  | n + 1, v, T => by
    simp only [limbsLE, List.foldl_cons]
    rw [foldl_cios_limbs x m inv n (v / limbBase) (ciosStep x m inv T (v % limbBase))]
    rw [Function.iterate_succ_apply]
    congr 1
    rw [pow_succ', Nat.mod_mul]
    rw [show T + x * (v % limbBase + limbBase * (v / limbBase % limbBase ^ n)) =
        T + x * (v % limbBase) + limbBase * (x * (v / limbBase % limbBase ^ n)) from by
      ring]
    rw [montRedcStep_shift]
    rfl

/-- C9: for every 384-bit input (x, y, m, inverse), the performance-optimized interleaved
limb-multiply-accumulate path (`mulx_mont_384`) and the portable full-product limb-wise
reduction fallback (`montmul384_64bitlimbs`) produce the same value, and hence
byte-identical 48-byte outputs when stored. -/
theorem mont_paths_agree (x y m inv : Nat) (hy : y < 2 ^ 384) :
    mulx_mont_384 x y m inv = montmul384_64bitlimbs x y m inv ∧
    ∀ (mem : List Nat) (o : Nat),
      writeLE mem o (mulx_mont_384 x y m inv) 48 =
        writeLE mem o (montmul384_64bitlimbs x y m inv) 48 := by
  have h6 : limbBase ^ 6 = 2 ^ 384 := by
    rw [limbBase, ← pow_mul]
  have key : (limbsLE 6 y).foldl (ciosStep x m inv) 0 =
      Nat.iterate (montRedcStep m inv) 6 (x * y) := by
    rw [foldl_cios_limbs x m inv 6 y 0, h6, Nat.mod_eq_of_lt hy, Nat.zero_add]
  constructor
  · unfold mulx_mont_384 montmul384_64bitlimbs
    rw [key]
  · intro mem o
    unfold mulx_mont_384 montmul384_64bitlimbs
    rw [key]

theorem mont_paths_agree_instance :
    mulx_mont_384 3 5 7 10540996613548315209 =
      montmul384_64bitlimbs 3 5 7 10540996613548315209 :=
  (mont_paths_agree 3 5 7 10540996613548315209 (by norm_num)).1

/-! ### C2: gas reporting at the external boundary -/

theorem gasOk_of_inv (G : Int) (s : ExecutionState) (h : Inv G s) : GasOk G s := by
  intro _
  obtain ⟨h1, h2, h3⟩ := h
  exact ⟨h1, by omega⟩

theorem stepOk_exit (G : Int) (s : ExecutionState) (code : StatusCode)
    (h : code = StatusCode.success ∨ code = StatusCode.revert →
      0 ≤ s.gasLeft ∧ s.gasLeft ≤ G) :
    StepOk G (s.exit code) := by
  constructor
  · intro pc' hpc
    simp [ExecutionState.exit] at hpc
  · intro _ hst
    exact h hst

theorem stepOk_some (G : Int) (pc : Nat) (s : ExecutionState) (h : Inv G s) :
    StepOk G (some pc, s) :=
  ⟨fun _ _ => h, fun hn => nomatch hn⟩

theorem stepOk_none (G : Int) (s : ExecutionState) (h : Inv G s) :
    StepOk G ((none : Option Nat), s) :=
  ⟨fun _ hpc => (nomatch hpc), fun _ => gasOk_of_inv G s h⟩

theorem inv_surgery (G : Int) (s t : ExecutionState) (h : Inv G s)
    (hg : t.gasLeft = s.gasLeft) (hc : t.currentBlockCost = s.currentBlockCost) :
    Inv G t :=
  ⟨by rw [hg]; exact h.1, by rw [hc]; exact h.2.1, by rw [hg, hc]; exact h.2.2⟩

theorem stepOk_popped (G : Int) (r : Option Nat × ExecutionState) (h : StepOk G r) :
    StepOk G (r.1, (popStack r.2).2) :=
  ⟨fun pc' hpc => h.1 pc' hpc, fun hn => h.2 hn⟩

theorem opx_beginblock_sound (G : Int) (blk : BlockInfo) (pcv : Nat)
    (s : ExecutionState) (hwf : 0 ≤ blk.gas_cost) (hs : Inv G s) :
    StepOk G (opx_beginblock blk pcv s) := by
  obtain ⟨h1, h2, h3⟩ := hs
  simp only [opx_beginblock]
  split
  · exact stepOk_exit _ _ _ fun hc => absurd hc (by decide)
  · split
    · exact stepOk_exit _ _ _ fun hc => absurd hc (by decide)
    · split
      · exact stepOk_exit _ _ _ fun hc => absurd hc (by decide)
      · rename_i hgas _ _
        refine stepOk_some _ _ _ ⟨?_, hwf, ?_⟩
        · show 0 ≤ s.gasLeft - blk.gas_cost
          omega
        · show s.gasLeft - blk.gas_cost + blk.gas_cost ≤ G
          omega

theorem op_sstore_sound (G : Int) (h : Host) (hh : HostSound h) (pcv : Nat) (n : Int)
    (s : ExecutionState) (hn : 0 ≤ n) (hs : Inv G s) :
    StepOk G (op_sstore h pcv n s) := by
  obtain ⟨h1, h2, h3⟩ := hs
  obtain ⟨hfg, hfs, hfc⟩ :=
    hh.1 { s with gasLeft := s.gasLeft + (s.currentBlockCost - n) }
  rw [show ({ s with gasLeft := s.gasLeft + (s.currentBlockCost - n) } :
    ExecutionState).gasLeft = s.gasLeft + (s.currentBlockCost - n) from rfl] at hfg
  simp only [op_sstore]
  split
  · exact stepOk_exit _ _ _ fun hc => ⟨hfs hc, by omega⟩
  · split
    · exact stepOk_exit _ _ _ fun hc => absurd hc (by decide)
    · rename_i hok
      refine stepOk_some _ _ _ ⟨?_, ?_, ?_⟩
      · show 0 ≤ (h.sstore { s with
          gasLeft := s.gasLeft + (s.currentBlockCost - n) }).2.gasLeft -
            (s.currentBlockCost - n)
        omega
      · show 0 ≤ (h.sstore { s with
          gasLeft := s.gasLeft + (s.currentBlockCost - n) }).2.currentBlockCost
        rw [hfc]
        exact h2
      · show (h.sstore { s with
            gasLeft := s.gasLeft + (s.currentBlockCost - n) }).2.gasLeft -
              (s.currentBlockCost - n) +
            (h.sstore { s with
              gasLeft := s.gasLeft + (s.currentBlockCost - n) }).2.currentBlockCost ≤ G
        rw [hfc]
        show (h.sstore { s with
            gasLeft := s.gasLeft + (s.currentBlockCost - n) }).2.gasLeft -
              (s.currentBlockCost - n) + s.currentBlockCost ≤ G
        omega

theorem op_call_sound (G : Int) (h : Host) (hh : HostSound h) (k : CallKind) (st : Bool)
    (pcv : Nat) (n : Int) (s : ExecutionState) (hn : 0 ≤ n) (hs : Inv G s) :
    StepOk G (op_call h k st pcv n s) := by
  obtain ⟨h1, h2, h3⟩ := hs
  obtain ⟨hfg, hfs, hfc⟩ :=
    hh.2.1 k st { s with gasLeft := s.gasLeft + (s.currentBlockCost - n) }
  rw [show ({ s with gasLeft := s.gasLeft + (s.currentBlockCost - n) } :
    ExecutionState).gasLeft = s.gasLeft + (s.currentBlockCost - n) from rfl] at hfg
  simp only [op_call]
  split
  · exact stepOk_exit _ _ _ fun hc => ⟨hfs hc, by omega⟩
  · split
    · exact stepOk_exit _ _ _ fun hc => absurd hc (by decide)
    · rename_i hok
      refine stepOk_some _ _ _ ⟨?_, ?_, ?_⟩
      · show 0 ≤ (h.call k st { s with
          gasLeft := s.gasLeft + (s.currentBlockCost - n) }).2.gasLeft -
            (s.currentBlockCost - n)
        omega
      · show 0 ≤ (h.call k st { s with
          gasLeft := s.gasLeft + (s.currentBlockCost - n) }).2.currentBlockCost
        rw [hfc]
        exact h2
      · show (h.call k st { s with
            gasLeft := s.gasLeft + (s.currentBlockCost - n) }).2.gasLeft -
              (s.currentBlockCost - n) +
            (h.call k st { s with
              gasLeft := s.gasLeft + (s.currentBlockCost - n) }).2.currentBlockCost ≤ G
        rw [hfc]
        show (h.call k st { s with
            gasLeft := s.gasLeft + (s.currentBlockCost - n) }).2.gasLeft -
              (s.currentBlockCost - n) + s.currentBlockCost ≤ G
        omega

theorem op_create_sound (G : Int) (h : Host) (hh : HostSound h) (k : CreateKind)
    (pcv : Nat) (n : Int) (s : ExecutionState) (hn : 0 ≤ n) (hs : Inv G s) :
    StepOk G (op_create h k pcv n s) := by
  obtain ⟨h1, h2, h3⟩ := hs
  obtain ⟨hfg, hfs, hfc⟩ :=
    hh.2.2.1 k { s with gasLeft := s.gasLeft + (s.currentBlockCost - n) }
  rw [show ({ s with gasLeft := s.gasLeft + (s.currentBlockCost - n) } :
    ExecutionState).gasLeft = s.gasLeft + (s.currentBlockCost - n) from rfl] at hfg
  simp only [op_create]
  split
  · exact stepOk_exit _ _ _ fun hc => ⟨hfs hc, by omega⟩
  · split
    · exact stepOk_exit _ _ _ fun hc => absurd hc (by decide)
    · rename_i hok
      refine stepOk_some _ _ _ ⟨?_, ?_, ?_⟩
      · show 0 ≤ (h.create k { s with
          gasLeft := s.gasLeft + (s.currentBlockCost - n) }).2.gasLeft -
            (s.currentBlockCost - n)
        omega
      · show 0 ≤ (h.create k { s with
          gasLeft := s.gasLeft + (s.currentBlockCost - n) }).2.currentBlockCost
        rw [hfc]
        exact h2
      · show (h.create k { s with
            gasLeft := s.gasLeft + (s.currentBlockCost - n) }).2.gasLeft -
              (s.currentBlockCost - n) +
            (h.create k { s with
              gasLeft := s.gasLeft + (s.currentBlockCost - n) }).2.currentBlockCost ≤ G
        rw [hfc]
        show (h.create k { s with
            gasLeft := s.gasLeft + (s.currentBlockCost - n) }).2.gasLeft -
              (s.currentBlockCost - n) + s.currentBlockCost ≤ G
        omega

theorem op_jump_sound (G : Int) (a : Analysis) (s : ExecutionState) (hs : Inv G s) :
    StepOk G (op_jump a s) := by
  simp only [op_jump, popStack]
  split
  · exact stepOk_exit _ _ _ fun hc => absurd hc (by decide)
  · split
    · exact stepOk_exit _ _ _ fun hc => absurd hc (by decide)
    · exact stepOk_some _ _ _ hs

theorem op_jumpi_sound (G : Int) (a : Analysis) (pcv : Nat) (s : ExecutionState)
    (hs : Inv G s) : StepOk G (op_jumpi a pcv s) := by
  simp only [op_jumpi]
  apply stepOk_popped
  split
  · exact op_jump_sound G a s hs
  · exact stepOk_some _ _ _ hs

theorem op_return_sound (G : Int) (code : StatusCode) (s : ExecutionState)
    (hs : Inv G s) : StepOk G (op_return code s) := by
  have hX : 0 ≤ (check_memory s (s.stack.getD 0 0) (s.stack.getD 1 0)).2.gasLeft ∧
      (check_memory s (s.stack.getD 0 0) (s.stack.getD 1 0)).2.gasLeft ≤ G := by
    rw [check_memory_gas]
    exact ⟨hs.1, by have h2 := hs.2.1; have h3 := hs.2.2; omega⟩
  simp only [op_return]
  split
  · split
    · exact stepOk_exit _ _ _ fun _ => hX
    · exact stepOk_exit _ _ _ fun _ => hX
  · exact stepOk_exit _ _ _ fun hc => absurd hc (by decide)

theorem op_selfdestruct_sound (G : Int) (h : Host) (hh : HostSound h)
    (s : ExecutionState) (hs : Inv G s) : StepOk G (op_selfdestruct h s) := by
  obtain ⟨hfg, hfs, _⟩ := hh.2.2.2 s
  exact stepOk_exit _ _ _ fun hc =>
    ⟨hfs hc, by have h1 := hs.1; have h2 := hs.2.1; have h3 := hs.2.2; omega⟩

set_option maxHeartbeats 2000000 in
theorem op_addmod384_sound (G : Int) (pcv : Nat) (s : ExecutionState) (hs : Inv G s) :
    StepOk G (op_addmod384 pcv s) := by
  have hg := check_memory_gas { s with stack := s.stack.tail }
    (max_memory_index (s.stack.headD 0)) 48
  have hb := check_memory_blockCost { s with stack := s.stack.tail }
    (max_memory_index (s.stack.headD 0)) 48
  simp only [op_addmod384, popStack]
  split
  · refine stepOk_some _ _ _ ⟨?_, ?_, ?_⟩
    · show 0 ≤ (check_memory { s with stack := s.stack.tail }
        (max_memory_index (s.stack.headD 0)) 48).2.gasLeft
      rw [hg]; exact hs.1
    · show 0 ≤ (check_memory { s with stack := s.stack.tail }
        (max_memory_index (s.stack.headD 0)) 48).2.currentBlockCost
      rw [hb]; exact hs.2.1
    · show (check_memory { s with stack := s.stack.tail }
          (max_memory_index (s.stack.headD 0)) 48).2.gasLeft +
        (check_memory { s with stack := s.stack.tail }
          (max_memory_index (s.stack.headD 0)) 48).2.currentBlockCost ≤ G
      rw [hg, hb]; exact hs.2.2
  · refine stepOk_none _ _ ⟨?_, ?_, ?_⟩
    · show 0 ≤ (check_memory { s with stack := s.stack.tail }
        (max_memory_index (s.stack.headD 0)) 48).2.gasLeft
      rw [hg]; exact hs.1
    · show 0 ≤ (check_memory { s with stack := s.stack.tail }
        (max_memory_index (s.stack.headD 0)) 48).2.currentBlockCost
      rw [hb]; exact hs.2.1
    · show (check_memory { s with stack := s.stack.tail }
          (max_memory_index (s.stack.headD 0)) 48).2.gasLeft +
        (check_memory { s with stack := s.stack.tail }
          (max_memory_index (s.stack.headD 0)) 48).2.currentBlockCost ≤ G
      rw [hg, hb]; exact hs.2.2

set_option maxHeartbeats 2000000 in
theorem op_submod384_sound (G : Int) (pcv : Nat) (s : ExecutionState) (hs : Inv G s) :
    StepOk G (op_submod384 pcv s) := by
  have hg := check_memory_gas { s with stack := s.stack.tail }
    (max_memory_index (s.stack.headD 0)) 48
  have hb := check_memory_blockCost { s with stack := s.stack.tail }
    (max_memory_index (s.stack.headD 0)) 48
  simp only [op_submod384, popStack]
  split
  · refine stepOk_some _ _ _ ⟨?_, ?_, ?_⟩
    · show 0 ≤ (check_memory { s with stack := s.stack.tail }
        (max_memory_index (s.stack.headD 0)) 48).2.gasLeft
      rw [hg]; exact hs.1
    · show 0 ≤ (check_memory { s with stack := s.stack.tail }
        (max_memory_index (s.stack.headD 0)) 48).2.currentBlockCost
      rw [hb]; exact hs.2.1
    · show (check_memory { s with stack := s.stack.tail }
          (max_memory_index (s.stack.headD 0)) 48).2.gasLeft +
        (check_memory { s with stack := s.stack.tail }
          (max_memory_index (s.stack.headD 0)) 48).2.currentBlockCost ≤ G
      rw [hg, hb]; exact hs.2.2
  · refine stepOk_none _ _ ⟨?_, ?_, ?_⟩
    · show 0 ≤ (check_memory { s with stack := s.stack.tail }
        (max_memory_index (s.stack.headD 0)) 48).2.gasLeft
      rw [hg]; exact hs.1
    · show 0 ≤ (check_memory { s with stack := s.stack.tail }
        (max_memory_index (s.stack.headD 0)) 48).2.currentBlockCost
      rw [hb]; exact hs.2.1
    · show (check_memory { s with stack := s.stack.tail }
          (max_memory_index (s.stack.headD 0)) 48).2.gasLeft +
        (check_memory { s with stack := s.stack.tail }
          (max_memory_index (s.stack.headD 0)) 48).2.currentBlockCost ≤ G
      rw [hg, hb]; exact hs.2.2

set_option maxHeartbeats 2000000 in
theorem op_mulmodmont384_sound (G : Int) (pcv : Nat) (s : ExecutionState)
    (hs : Inv G s) : StepOk G (op_mulmodmont384 pcv s) := by
  have hg := check_memory_gas { s with stack := s.stack.tail }
    (max_memory_index (s.stack.headD 0)) 56
  have hb := check_memory_blockCost { s with stack := s.stack.tail }
    (max_memory_index (s.stack.headD 0)) 56
  simp only [op_mulmodmont384, popStack]
  split
  · refine stepOk_some _ _ _ ⟨?_, ?_, ?_⟩
    · show 0 ≤ (check_memory { s with stack := s.stack.tail }
        (max_memory_index (s.stack.headD 0)) 56).2.gasLeft
      rw [hg]; exact hs.1
    · show 0 ≤ (check_memory { s with stack := s.stack.tail }
        (max_memory_index (s.stack.headD 0)) 56).2.currentBlockCost
      rw [hb]; exact hs.2.1
    · show (check_memory { s with stack := s.stack.tail }
          (max_memory_index (s.stack.headD 0)) 56).2.gasLeft +
        (check_memory { s with stack := s.stack.tail }
          (max_memory_index (s.stack.headD 0)) 56).2.currentBlockCost ≤ G
      rw [hg, hb]; exact hs.2.2
  · refine stepOk_none _ _ ⟨?_, ?_, ?_⟩
    · show 0 ≤ (check_memory { s with stack := s.stack.tail }
        (max_memory_index (s.stack.headD 0)) 56).2.gasLeft
      rw [hg]; exact hs.1
    · show 0 ≤ (check_memory { s with stack := s.stack.tail }
        (max_memory_index (s.stack.headD 0)) 56).2.currentBlockCost
      rw [hb]; exact hs.2.1
    · show (check_memory { s with stack := s.stack.tail }
          (max_memory_index (s.stack.headD 0)) 56).2.gasLeft +
        (check_memory { s with stack := s.stack.tail }
          (max_memory_index (s.stack.headD 0)) 56).2.currentBlockCost ≤ G
      rw [hg, hb]; exact hs.2.2

theorem step_sound (G : Int) (a : Analysis) (h : Host) (pcv : Nat) (s : ExecutionState)
    (hh : HostSound h) (ha : AnalysisWF a) (hs : Inv G s) :
    StepOk G (step a h pcv s) := by
  unfold step
  cases hget : a.instrs.get? pcv with
  | none => exact stepOk_none G s hs
  | some i =>
    have hwf : instrWF i = true := ha i (List.get?_mem hget)
    cases i with
    | beginblock blk =>
      exact opx_beginblock_sound G blk pcv s (of_decide_eq_true hwf) hs
    | stop => exact stepOk_exit _ _ _ fun _ => ⟨hs.1, by
        have h2 := hs.2.1; have h3 := hs.2.2; omega⟩
    | sstore n => exact op_sstore_sound G h hh pcv n s (of_decide_eq_true hwf) hs
    | jump => exact op_jump_sound G a s hs
    | jumpi => exact op_jumpi_sound G a pcv s hs
    | pc n => exact stepOk_some _ _ _ hs
    | gas n => exact stepOk_some _ _ _ hs
    | push v => exact stepOk_some _ _ _ hs
    | invalid => exact stepOk_exit _ _ _ fun hc => absurd hc (by decide)
    | undefined => exact stepOk_exit _ _ _ fun hc => absurd hc (by decide)
    | ret => exact op_return_sound G .success s hs
    | revert => exact op_return_sound G .revert s hs
    | call k st n => exact op_call_sound G h hh k st pcv n s (of_decide_eq_true hwf) hs
    | create k n => exact op_create_sound G h hh k pcv n s (of_decide_eq_true hwf) hs
    | selfdestruct => exact op_selfdestruct_sound G h hh s hs
    | addmod384 => exact op_addmod384_sound G pcv s hs
    | submod384 => exact op_submod384_sound G pcv s hs
    | mulmodmont384 => exact op_mulmodmont384_sound G pcv s hs

theorem run_sound (G : Int) (a : Analysis) (h : Host) (hh : HostSound h)
    (ha : AnalysisWF a) : ∀ (fuel : Nat) (c : Option Nat) (s : ExecutionState),
      Inv G s → (run a h fuel c s).1 = none → GasOk G (run a h fuel c s).2
  | 0, _, s, hs, _ => gasOk_of_inv G s hs
  | _ + 1, none, s, hs, _ => gasOk_of_inv G s hs
  | fuel + 1, some pcv, s, hs, hterm => by
    have hstep := step_sound G a h pcv s hh ha hs
    have heq : run a h (fuel + 1) (some pcv) s =
        run a h fuel (step a h pcv s).1 (step a h pcv s).2 := rfl
    rw [heq] at hterm ⊢
    rcases hc : (step a h pcv s).1 with _ | pc'
    · rw [hc] at hterm
      rw [run_none] at hterm ⊢
      exact hstep.2 hc
    · rw [hc] at hterm
      exact run_sound G a h hh ha fuel (some pc') (step a h pcv s).2
        (hstep.1 pc' hc) hterm

theorem hostInert_sound : HostSound hostInert := by
  refine ⟨?_, fun k st => ?_, fun k => ?_, ?_⟩ <;>
    refine fun s => ⟨le_refl _, fun hc => ?_, rfl⟩ <;>
    rcases hc with hc | hc <;>
    exact StatusCode.noConfusion hc

/-- C2: for every terminating execution through the external entry point, over any sound
host model and well-formed analysis output, if the final status is Success or Revert then
the reported gas remaining equals the frame's `gas_left` and satisfies
0 ≤ gas remaining ≤ the original gas budget; for every other final status the reported
gas remaining is 0. -/
theorem execute_gas_report (a : Analysis) (h : Host) (gasBudget : Int) (fuel : Nat)
    (hg : 0 ≤ gasBudget) (hh : HostSound h) (ha : AnalysisWF a)
    (hterm : (execute a h gasBudget fuel).1 = none) :
    ((execute a h gasBudget fuel).2.status = StatusCode.success ∨
        (execute a h gasBudget fuel).2.status = StatusCode.revert →
      (execute a h gasBudget fuel).2.gas_left =
          (run a h fuel (some 0) (initialState gasBudget)).2.gasLeft ∧
        0 ≤ (execute a h gasBudget fuel).2.gas_left ∧
        (execute a h gasBudget fuel).2.gas_left ≤ gasBudget) ∧
    (¬((execute a h gasBudget fuel).2.status = StatusCode.success ∨
        (execute a h gasBudget fuel).2.status = StatusCode.revert) →
      (execute a h gasBudget fuel).2.gas_left = 0) := by
  have hinv : Inv gasBudget (initialState gasBudget) := by
    refine ⟨hg, ?_, ?_⟩
    · show (0:Int) ≤ 0
      omega
    · show gasBudget + 0 ≤ gasBudget
      omega
  have hrun := run_sound gasBudget a h hh ha fuel (some 0) (initialState gasBudget)
    hinv hterm
  constructor
  · intro hst
    have hst' : (run a h fuel (some 0) (initialState gasBudget)).2.status =
        StatusCode.success ∨
        (run a h fuel (some 0) (initialState gasBudget)).2.status =
          StatusCode.revert := hst
    have hb := hrun hst'
    refine ⟨?_, ?_, ?_⟩
    · show (if (run a h fuel (some 0) (initialState gasBudget)).2.status =
            StatusCode.success ∨
            (run a h fuel (some 0) (initialState gasBudget)).2.status =
              StatusCode.revert then
          (run a h fuel (some 0) (initialState gasBudget)).2.gasLeft else 0) =
        (run a h fuel (some 0) (initialState gasBudget)).2.gasLeft
      rw [if_pos hst']
    · show (0:Int) ≤ if (run a h fuel (some 0) (initialState gasBudget)).2.status =
            StatusCode.success ∨
            (run a h fuel (some 0) (initialState gasBudget)).2.status =
              StatusCode.revert then
          (run a h fuel (some 0) (initialState gasBudget)).2.gasLeft else 0
      rw [if_pos hst']
      exact hb.1
    · show (if (run a h fuel (some 0) (initialState gasBudget)).2.status =
            StatusCode.success ∨
            (run a h fuel (some 0) (initialState gasBudget)).2.status =
              StatusCode.revert then
          (run a h fuel (some 0) (initialState gasBudget)).2.gasLeft else 0) ≤ gasBudget
      rw [if_pos hst']
      exact hb.2
  · intro hst
    have hst' : ¬((run a h fuel (some 0) (initialState gasBudget)).2.status =
        StatusCode.success ∨
        (run a h fuel (some 0) (initialState gasBudget)).2.status =
          StatusCode.revert) := hst
    show (if (run a h fuel (some 0) (initialState gasBudget)).2.status =
          StatusCode.success ∨
          (run a h fuel (some 0) (initialState gasBudget)).2.status =
            StatusCode.revert then
        (run a h fuel (some 0) (initialState gasBudget)).2.gasLeft else 0) = 0
    rw [if_neg hst']

theorem execute_gas_report_witness :
    (execute anaStop hostInert 5 1).2.gas_left =
        (run anaStop hostInert 1 (some 0) (initialState 5)).2.gasLeft ∧
      0 ≤ (execute anaStop hostInert 5 1).2.gas_left ∧
      (execute anaStop hostInert 5 1).2.gas_left ≤ 5 :=
  (execute_gas_report anaStop hostInert 5 1 (by decide) hostInert_sound (by decide)
    rfl).1 (Or.inl rfl)

end Evmone
